import Mathlib

/-!
Verification of the pattern-rewrite dispatcher of `src/patterns.rs`
(a width-budgeted pretty-printer for pattern syntax nodes).

The dispatcher itself (`Pat::rewrite`, `FieldPat::rewrite`) is translated
from the source.  The collaborators it calls (path renderer, list layout
engine, width-fit normalizer, ...) live outside the given source tree and
are modelled from the specification's contracts; each such definition is
marked `Modelled from the spec:` in its doc comment.
-/

namespace RustfmtPatterns

/-- Formatter configuration; only the global maximum width matters here. -/
structure Config where
  max_width : Nat

/-- Indentation offset, modelled as a column count. -/
abbrev Indent := Nat

/-- Modelled from the spec: rendering an indentation offset to a literal
whitespace string for a continuation line (`offset.to_string(config)`). -/
def indent_to_string (i : Indent) (_c : Config) : String :=
  String.mk (List.replicate i ' ')

/-- Checked subtraction on width budgets (`usize::checked_sub`): `none` on
underflow, never a wrapped value. -/
def checked_sub (n k : Nat) : Option Nat :=
  if k ≤ n then some (n - k) else none

/-- Whether a string contains a given character (`str::contains`). -/
def str_contains (s : String) (c : Char) : Bool := s.data.contains c

/-- Splitting a character list at newline characters. -/
def lines_data : List Char → List (List Char)
  | [] => [[]]
  | c :: cs =>
    match lines_data cs with
    | [] => [[c]]
    | l :: ls => if c = '\n' then [] :: l :: ls else (c :: l) :: ls

/-- The lines of a rendered string. -/
def all_lines (s : String) : List String := (lines_data s.data).map (fun cs => String.mk cs)

/-- The first line of a rendered string. -/
def first_line (s : String) : String :=
  String.mk (s.data.takeWhile (fun c => !(c = '\n')))

/-- Modelled from the spec: the Width-Fit Normalizer (`wrap_str`), missing
from the given sources.  It validates a fully composed string against the
local width (first line) and the global maximum width (every line),
performing no reflow. -/
def wrap_str (s : String) (maxWidth width : Nat) (_off : Indent) : Option String :=
  if (first_line s).length ≤ width then
    if (all_lines s).all (fun l => l.length ≤ maxWidth) then some s else none
  else none

/-- Modelled from the spec: the Mutability Formatter (`format_mutability`). -/
def format_mutability (m : Bool) : String := if m then "mut " else ""

/-- Modelled from the spec: the Path Renderer (`rewrite_path`), missing from
the given sources; it renders the (possibly qualified) path and reports
no-fit when the rendered path exceeds the width. -/
def rewrite_path (_c : Config) (_qualified : Bool) (qself : Option String)
    (path : String) (width : Nat) (_off : Indent) : Option String :=
  let s := match qself with
    | some q => "<" ++ q ++ ">::" ++ path
    | none => path
  if s.length ≤ width then some s else none

/-- Modelled from the spec: the List Layout Engine (`itemize_list` plus
`format_item_list`), missing from the given sources.  It receives the
already-attempted sub-renderings, fails if any of them is no-fit, renders
them single-line `a, b, c` when that fits the width, and otherwise one per
line indented by the offset. -/
def format_item_list (items : List (Option String)) (_terminator : String)
    (width : Nat) (off : Indent) (c : Config) : Option String :=
  if items.any (fun o => o.isNone) then none
  else
    let strs := items.map (fun o => o.getD "")
    let one := String.intercalate ", " strs
    if one.length ≤ width then some one
    else some (String.intercalate (",\n" ++ indent_to_string off c) strs)

/-- Modelled from the spec: the Binary-Pair Renderer (`rewrite_pair`),
missing from the given sources. -/
def rewrite_pair (lhs rhs lpad connector rpad : String) (width : Nat)
    (_off : Indent) : Option String :=
  let s := lhs ++ lpad ++ connector ++ rpad ++ rhs
  if s.length ≤ width then some s else none

/-- Modelled from the spec: the Literal/Expression Renderer, missing from
the given sources; expressions are modelled as their rendered text. -/
def rewrite_expr (e : String) (width : Nat) (_off : Indent) : Option String :=
  if e.length ≤ width then some e else none

/-- Modelled from the spec: the Prefixed-Unary Renderer
(`rewrite_unary_prefix`), missing from the given sources; it reserves the
prefix's columns and prepends the fixed prefix to the recursively rendered
inner node. -/
def rewrite_unary_prefix (rw : Nat → Indent → Option String) (pre : String)
    (width : Nat) (off : Indent) : Option String :=
  (checked_sub width pre.length).bind
    (fun w => (rw w (off + pre.length)).map (fun s => pre ++ s))

/-- Modelled from the spec: the Tuple Renderer (`rewrite_tuple`), missing
from the given sources; it reserves one column for the opening delimiter
and lays the elements out like the List Layout Engine, in parentheses. -/
def rewrite_tuple (rws : Nat → Indent → List (Option String)) (width : Nat)
    (off : Indent) (c : Config) : Option String :=
  (checked_sub width 1).bind (fun w =>
    (format_item_list (rws w (off + 1)) ")" w (off + 1) c).map
      (fun s => "(" ++ s ++ ")"))

/-- Binding modes of `PatIdent` (`syntax::ast::BindingMode`). -/
inductive BindingMode where
  | byRef (mutable : Bool)
  | byValue (mutable : Bool)

mutual
/-- Pattern syntax nodes (`syntax::ast::Pat_`); expressions, paths and
source snippets are modelled as their rendered text. -/
inductive Pat where
  | patBox (p : Pat)
  | patIdent (bm : BindingMode) (name : String) (sub : Option Pat)
  | patWild
  | patQPath (qself path : String)
  | patRange (lo hi : String)
  | patRegion (mutable : Bool) (p : Pat)
  | patTup (elems : List Pat)
  | patEnum (path : String) (elems : Option (List Pat))
  | patLit (e : String)
  | patVec (pre : List Pat) (slicePat : Option Pat) (suf : List Pat)
  | patStruct (path : String) (fields : List FieldPat) (elipses : Bool)
  | patMac (snippet : String)

/-- Struct-field patterns (`syntax::ast::FieldPat`). -/
inductive FieldPat where
  | mk (ident : String) (pat : Pat) (is_shorthand : Bool)
end

/-- The `(prefix, mutability)` pair computed from the binding mode in the
`PatIdent` arm. -/
def binding_parts : BindingMode → String × Bool
  | BindingMode.byRef m => ("ref ", m)
  | BindingMode.byValue m => ("", m)

/-- The rewrite context; only the configuration is relevant here (the
codemap is only used by collaborators to locate source spans). -/
structure RewriteContext where
  config : Config

mutual

/-- Rewrite dispatcher for patterns, translated from
`impl Rewrite for Pat` in `src/patterns.rs`. -/
def Pat.rewrite (ctx : RewriteContext) : Pat → Nat → Indent → Option String
  | Pat.patBox p, width, off =>
      rewrite_unary_prefix (fun w o => Pat.rewrite ctx p w o) "box " width off
  | Pat.patIdent bm name sub, width, off =>
      let pm := binding_parts bm
      let mutStr := format_mutability pm.2
      let subRes : Option String :=
        match sub with
        | some p =>
            (checked_sub width (pm.1.length + mutStr.length + name.length)).bind
              (fun w => (Pat.rewrite ctx p w off).map (fun s => " @ " ++ s))
        | none => some ""
      subRes.bind (fun subStr =>
        wrap_str (pm.1 ++ mutStr ++ name ++ subStr) ctx.config.max_width width off)
  | Pat.patWild, width, _ =>
      if 1 ≤ width then some "_" else none
  | Pat.patQPath q path, width, off =>
      rewrite_path ctx.config true (some q) path width off
  | Pat.patRange lo hi, width, off =>
      rewrite_pair lo hi "" "..." "" width off
  | Pat.patRegion m p, width, off =>
      rewrite_unary_prefix (fun w o => Pat.rewrite ctx p w o)
        ("&" ++ format_mutability m) width off
  | Pat.patTup elems, width, off =>
      rewrite_tuple (fun w o => Pat.rewriteList ctx elems w o) width off ctx.config
  | Pat.patEnum path elems, width, off =>
      (rewrite_path ctx.config true none path width off).bind (fun pathStr =>
        match elems with
        | some es =>
            if es.isEmpty then some pathStr
            else
              (checked_sub width (pathStr.length + 1)).bind (fun w =>
                (format_item_list (Pat.rewriteList ctx es w (off + pathStr.length + 1)) ")"
                    w (off + pathStr.length + 1) ctx.config).map
                  (fun ls => pathStr ++ "(" ++ ls ++ ")"))
        | none => some (pathStr ++ "(..)"))
  | Pat.patLit e, width, off => rewrite_expr e width off
  | Pat.patVec pre slicePat suf, width, off =>
      let preR := Pat.rewriteList ctx pre width off
      let sliceR : Option (Option String) :=
        match slicePat with
        | some p => some ((Pat.rewrite ctx p width off).map (fun s => s ++ ".."))
        | none => none
      let sufR := Pat.rewriteList ctx suf width off
      let pats := preR ++ sliceR.toList ++ sufR
      let pr := pats.partition (fun o => o.isSome)
      if pr.2.length > 0 then none
      else some ("[" ++ String.intercalate ", " (pr.1.map (fun o => o.getD "")) ++ "]")
  | Pat.patStruct path fields elipses, width, off =>
      (rewrite_path ctx.config true none path width off).bind (fun pathStr =>
        let es := if elipses then ", .." else ""
        let terminator := if elipses then ".." else "\x7d"
        (checked_sub width (pathStr.length + 5 + es.length)).bind (fun budget =>
          (format_item_list (FieldPat.rewriteList ctx fields budget (off + pathStr.length + 3))
              terminator budget (off + pathStr.length + 3) ctx.config).map
            (fun fs0 =>
              let fs := if elipses then
                  if str_contains fs0 '\n' then
                    fs0 ++ ",\n" ++ indent_to_string (off + pathStr.length + 3) ctx.config ++ ".."
                  else if fs0.length > 0 then fs0 ++ ", .."
                  else fs0 ++ ".."
                else fs0
              if fs.length == 0 then pathStr ++ " \x7b\x7d"
              else pathStr ++ " \x7b " ++ fs ++ " \x7d")))
  | Pat.patMac snippet, width, off =>
      wrap_str snippet ctx.config.max_width width off
termination_by structural p _ _ => p

/-- Rewrite for struct-field patterns, translated from
`impl Rewrite for FieldPat` in `src/patterns.rs`. -/
def FieldPat.rewrite (ctx : RewriteContext) : FieldPat → Nat → Indent → Option String
  | FieldPat.mk id p sh, width, off =>
      let pr := Pat.rewrite ctx p width off
      if sh then pr
      else pr.map (fun s => id ++ ": " ++ s)
termination_by structural f _ _ => f

/-- The per-item sub-renderings handed to the List Layout Engine by the
`PatEnum` and `PatTup` arms (the closure given to `itemize_list`). -/
def Pat.rewriteList (ctx : RewriteContext) : List Pat → Nat → Indent → List (Option String)
  | [], _, _ => []
  | p :: ps, width, off => Pat.rewrite ctx p width off :: Pat.rewriteList ctx ps width off
termination_by structural ps _ _ => ps

/-- The per-field sub-renderings handed to the List Layout Engine by the
`PatStruct` arm. -/
def FieldPat.rewriteList (ctx : RewriteContext) : List FieldPat → Nat → Indent → List (Option String)
  | [], _, _ => []
  | f :: fs, width, off => FieldPat.rewrite ctx f width off :: FieldPat.rewriteList ctx fs width off
termination_by structural fs _ _ => fs

end

/-- A concrete context with a generous global maximum width, used for
concrete evaluations. -/
def ctx0 : RewriteContext := ⟨⟨100⟩⟩

/-- Field name of a struct-field pattern. -/
def FieldPat.ident : FieldPat → String
  | FieldPat.mk i _ _ => i

/-- Bound pattern of a struct-field pattern. -/
def FieldPat.pat : FieldPat → Pat
  | FieldPat.mk _ p _ => p

/-- Whether a struct-field pattern uses the shorthand form. -/
def FieldPat.is_shorthand : FieldPat → Bool
  | FieldPat.mk _ _ b => b

/-- Whether a binding mode binds by reference. -/
def BindingMode.is_by_ref : BindingMode → Bool
  | BindingMode.byRef _ => true
  | BindingMode.byValue _ => false

/-- The mutability of a binding mode. -/
def BindingMode.mutability : BindingMode → Bool
  | BindingMode.byRef m => m
  | BindingMode.byValue m => m

/-- Follows the spec's words for the Slice arm: every element of the
leading run, the optional rest (rendered as its rendering followed by
`..`) and the trailing run is offered the full remaining budget; any
single failure is no-fit; otherwise the renderings are joined with `, `
and wrapped in brackets with no re-check against the width. -/
def slice_arm_spec (ctx : RewriteContext) (pre : List Pat) (rest : Option Pat)
    (suf : List Pat) (w : Nat) (off : Indent) : Option String :=
  let subs : List (Option String) :=
    pre.map (fun p => Pat.rewrite ctx p w off)
      ++ (match rest with
          | some p => [(Pat.rewrite ctx p w off).map (fun s => s ++ "..")]
          | none => [])
      ++ suf.map (fun p => Pat.rewrite ctx p w off)
  if subs.all (fun o => o.isSome) then
    some ("[" ++ String.intercalate ", " (subs.map (fun o => o.getD "")) ++ "]")
  else none

/-- Follows the spec's words for the Struct arm: reserve
`len(path) + 5 + len(rest_suffix)` columns, shift the offset right by
`len(path) + 3`, lay out the fields, then splice in the elision marker
and the `path {}` / `path { ... }` decoration. -/
def struct_arm_spec (ctx : RewriteContext) (path : String) (fields : List FieldPat)
    (has_rest_marker : Bool) (w : Nat) (off : Indent) : Option String :=
  (rewrite_path ctx.config true none path w off).bind (fun pathStr =>
    let rest_suffix := if has_rest_marker then ", .." else ""
    let terminator := if has_rest_marker then ".." else "\x7d"
    (checked_sub w (pathStr.length + 5 + rest_suffix.length)).bind (fun budget =>
      (format_item_list (FieldPat.rewriteList ctx fields budget (off + pathStr.length + 3))
          terminator budget (off + pathStr.length + 3) ctx.config).map
        (fun fieldText =>
          let fieldText2 :=
            if has_rest_marker then
              if str_contains fieldText '\n' then
                fieldText ++ ",\n" ++ indent_to_string (off + pathStr.length + 3) ctx.config ++ ".."
              else if fieldText.length > 0 then fieldText ++ ", .."
              else fieldText ++ ".."
            else fieldText
          if fieldText2.length == 0 then pathStr ++ " \x7b\x7d"
          else pathStr ++ " \x7b " ++ fieldText2 ++ " \x7d")))

/-- Follows the spec's words for the Binding arm: body is the by-reference
marker, mutability marker and name; a sub-pattern is rendered with
`width - len(body)` and appended after ` @ `; the assembled string passes
through the Width-Fit Normalizer. -/
def binding_arm_spec (ctx : RewriteContext) (bm : BindingMode) (name : String)
    (sub : Option Pat) (w : Nat) (off : Indent) : Option String :=
  let pre := if bm.is_by_ref then "ref " else ""
  let mutMarker := format_mutability bm.mutability
  let body := pre ++ mutMarker ++ name
  let subR : Option String :=
    match sub with
    | some p =>
        (checked_sub w body.length).bind
          (fun w2 => (Pat.rewrite ctx p w2 off).map (fun s => " @ " ++ s))
    | none => some ""
  subR.bind (fun s => wrap_str (body ++ s) ctx.config.max_width w off)

/-- Follows the spec's words for the Field-Pattern Renderer: shorthand
fields return the bound pattern's rendering unchanged; otherwise the
field name, `: ` and the rendering are concatenated, no-fit propagating. -/
def field_pat_spec (ctx : RewriteContext) (f : FieldPat) (w : Nat) (off : Indent) :
    Option String :=
  if f.is_shorthand then Pat.rewrite ctx f.pat w off
  else
    match Pat.rewrite ctx f.pat w off with
    | some r => some (f.ident ++ ": " ++ r)
    | none => none

mutual

/-- Whether a pattern contains no Binding node with a sub-pattern. -/
def Pat.noSubBinding : Pat → Bool
  | Pat.patBox p => p.noSubBinding
  | Pat.patIdent _ _ sub =>
      match sub with
      | some _ => false
      | none => true
  | Pat.patWild => true
  | Pat.patQPath _ _ => true
  | Pat.patRange _ _ => true
  | Pat.patRegion _ p => p.noSubBinding
  | Pat.patTup es => Pat.noSubBindingList es
  | Pat.patEnum _ es =>
      match es with
      | some l => Pat.noSubBindingList l
      | none => true
  | Pat.patLit _ => true
  | Pat.patVec pre s suf =>
      Pat.noSubBindingList pre &&
        (match s with
         | some p => p.noSubBinding
         | none => true) &&
        Pat.noSubBindingList suf
  | Pat.patStruct _ fs _ => FieldPat.noSubBindingList fs
  | Pat.patMac _ => true

/-- Whether a field pattern's bound pattern avoids sub-pattern bindings. -/
def FieldPat.noSubBinding : FieldPat → Bool
  | FieldPat.mk _ p _ => p.noSubBinding

/-- List version of `Pat.noSubBinding`. -/
def Pat.noSubBindingList : List Pat → Bool
  | [] => true
  | p :: ps => p.noSubBinding && Pat.noSubBindingList ps

/-- List version of `FieldPat.noSubBinding`. -/
def FieldPat.noSubBindingList : List FieldPat → Bool
  | [] => true
  | f :: fs => f.noSubBinding && FieldPat.noSubBindingList fs

end

lemma wrap_str_eq_some {s r : String} {mw w : Nat} {off : Indent}
    (h : wrap_str s mw w off = some r) :
    r = s ∧ (first_line s).length ≤ w := by
  unfold wrap_str at h
  split at h
  · split at h
    · exact ⟨(Option.some_inj.mp h).symm, by assumption⟩
    · exact absurd h (by simp)
  · exact absurd h (by simp)

lemma wrap_str_mono {s r : String} {mw w w' : Nat} {off : Indent} (hw : w ≤ w')
    (h : wrap_str s mw w off = some r) : wrap_str s mw w' off = some r := by
  unfold wrap_str at h ⊢
  split at h
  · rw [if_pos (le_trans (by assumption) hw)]
    exact h
  · exact absurd h (by simp)

lemma checked_sub_eq_some {n k : Nat} (h : k ≤ n) : checked_sub n k = some (n - k) := by
  simp [checked_sub, h]

lemma checked_sub_eq_none {n k : Nat} (h : n < k) : checked_sub n k = none := by
  rw [checked_sub, if_neg (by omega)]

lemma checked_sub_isSome_iff {n k : Nat} : (checked_sub n k).isSome = true ↔ k ≤ n := by
  unfold checked_sub
  split <;> simp_all

lemma any_isNone_eq_not_all (items : List (Option String)) :
    items.any (fun o => o.isNone) = !items.all (fun o => o.isSome) := by
  induction items with
  | nil => rfl
  | cons a l ih => cases a <;> simp [ih]

lemma format_item_list_isSome {items : List (Option String)} {t : String} {w : Nat}
    {off : Indent} {c : Config} :
    (format_item_list items t w off c).isSome = true ↔
      items.all (fun o => o.isSome) = true := by
  unfold format_item_list
  rw [any_isNone_eq_not_all]
  cases hall : items.all (fun o => o.isSome) with
  | true =>
      simp only [Bool.not_true, Bool.false_eq_true, if_false, iff_true]
      split <;> simp
  | false =>
      simp only [Bool.not_false, if_true]
      simp

lemma format_item_list_singleton (s t : String) (w : Nat) (off : Indent) (c : Config)
    (h : s.length ≤ w) : format_item_list [some s] t w off c = some s := by
  unfold format_item_list
  rw [if_neg (by simp)]
  have h1 : List.map (fun o : Option String => o.getD "") [some s] = [s] := rfl
  have h2 : String.intercalate ", " [s] = s := rfl
  rw [h1]
  dsimp only
  rw [h2, if_pos h]

lemma rewriteList_eq_map (ctx : RewriteContext) (ps : List Pat) (w : Nat) (off : Indent) :
    Pat.rewriteList ctx ps w off = ps.map (fun p => Pat.rewrite ctx p w off) := by
  induction ps with
  | nil => rfl
  | cons p l ih => simp [Pat.rewriteList, ih]

lemma fieldRewriteList_eq_map (ctx : RewriteContext) (fs : List FieldPat) (w : Nat)
    (off : Indent) :
    FieldPat.rewriteList ctx fs w off = fs.map (fun f => FieldPat.rewrite ctx f w off) := by
  induction fs with
  | nil => rfl
  | cons f l ih => simp [FieldPat.rewriteList, ih]

lemma partition_vs_all (l : List (Option String)) :
    (if (l.partition (fun o => o.isSome)).2.length > 0 then (none : Option String)
     else some ("[" ++ String.intercalate ", "
         ((l.partition (fun o => o.isSome)).1.map (fun o => o.getD "")) ++ "]"))
    = (if l.all (fun o => o.isSome) then
         some ("[" ++ String.intercalate ", " (l.map (fun o => o.getD "")) ++ "]")
       else none) := by
  rw [List.partition_eq_filter_filter]
  simp only [Function.comp_def]
  by_cases h : l.all (fun o => o.isSome) = true
  · have h1 : l.filter (fun o => o.isSome) = l :=
      List.filter_eq_self.mpr (fun a ha => List.all_eq_true.mp h a ha)
    have h2 : l.filter (fun o => !o.isSome) = [] := by
      rw [List.filter_eq_nil_iff]
      intro a ha
      simp [List.all_eq_true.mp h a ha]
    rw [if_pos h, h1, h2]
    simp
  · have h2 : 0 < (l.filter (fun o => !o.isSome)).length := by
      rw [List.length_pos]
      intro hnil
      apply h
      rw [List.all_eq_true]
      intro x hx
      by_contra hx2
      have hmem : x ∈ l.filter (fun o => !o.isSome) := by
        rw [List.mem_filter]
        exact ⟨hx, by simpa using hx2⟩
      rw [hnil] at hmem
      exact absurd hmem (List.not_mem_nil x)
    rw [if_neg h, if_pos h2]

lemma patVec_rewrite_eq (ctx : RewriteContext) (pre : List Pat) (rest : Option Pat)
    (suf : List Pat) (w : Nat) (off : Indent) :
    Pat.rewrite ctx (Pat.patVec pre rest suf) w off = slice_arm_spec ctx pre rest suf w off := by
  cases rest with
  | none =>
      unfold Pat.rewrite slice_arm_spec
      dsimp only [Option.toList]
      rw [rewriteList_eq_map, rewriteList_eq_map]
      exact partition_vs_all _
  | some p =>
      unfold Pat.rewrite slice_arm_spec
      dsimp only [Option.toList]
      rw [rewriteList_eq_map, rewriteList_eq_map]
      exact partition_vs_all _

lemma slice_arm_spec_isSome (ctx : RewriteContext) (pre : List Pat) (rest : Option Pat)
    (suf : List Pat) (w : Nat) (off : Indent) :
    (slice_arm_spec ctx pre rest suf w off).isSome = true ↔
      ((pre.map (fun p => Pat.rewrite ctx p w off)
        ++ (match rest with
            | some p => [(Pat.rewrite ctx p w off).map (fun s => s ++ "..")]
            | none => [])
        ++ suf.map (fun p => Pat.rewrite ctx p w off)).all (fun o => o.isSome)) = true := by
  unfold slice_arm_spec
  split <;> simp_all

lemma isSome_map {α β : Type} {f : α → β} {x : Option α} :
    (x.map f).isSome = x.isSome := by
  cases x <;> rfl

lemma fit_if_mono {X : String} {w w' : Nat} (hw : w ≤ w')
    (h : (if X.length ≤ w then some X else none).isSome = true) :
    (if X.length ≤ w' then some X else none).isSome = true := by
  by_cases h1 : X.length ≤ w
  · rw [if_pos (by omega)]
    rfl
  · rw [if_neg h1] at h
    exact absurd h (by simp)

lemma checked_bind_isSome {k w : Nat} {f : Nat → Option String}
    (h : ((checked_sub w k).bind f).isSome = true) :
    k ≤ w ∧ (f (w - k)).isSome = true := by
  by_cases hk : k ≤ w
  · rw [checked_sub_eq_some hk, Option.some_bind] at h
    exact ⟨hk, h⟩
  · rw [checked_sub_eq_none (by omega), Option.none_bind] at h
    exact absurd h (by simp)

lemma checked_bind_isSome_intro {k w : Nat} {f : Nat → Option String}
    (hk : k ≤ w) (h : (f (w - k)).isSome = true) :
    ((checked_sub w k).bind f).isSome = true := by
  rw [checked_sub_eq_some hk, Option.some_bind]
  exact h

lemma wrap_str_isSome_mono {s : String} {mw w w' : Nat} {off : Indent} (hw : w ≤ w')
    (h : (wrap_str s mw w off).isSome = true) : (wrap_str s mw w' off).isSome = true := by
  rw [Option.isSome_iff_exists] at h
  obtain ⟨r, hr⟩ := h
  rw [wrap_str_mono hw hr]
  rfl

lemma patStruct_isSome_iff (ctx : RewriteContext) (path : String) (fs : List FieldPat)
    (el : Bool) (v : Nat) (off : Indent) :
    (Pat.rewrite ctx (Pat.patStruct path fs el) v off).isSome = true ↔
      (path.length ≤ v ∧
       path.length + 5 + (if el then (", .." : String) else "").length ≤ v ∧
       (FieldPat.rewriteList ctx fs
          (v - (path.length + 5 + (if el then (", .." : String) else "").length))
          (off + path.length + 3)).all (fun o => o.isSome) = true) := by
  unfold Pat.rewrite rewrite_path
  dsimp only
  by_cases h1 : path.length ≤ v
  · rw [if_pos h1, Option.some_bind]
    by_cases h2 : path.length + 5 + (if el then (", .." : String) else "").length ≤ v
    · rw [checked_sub_eq_some h2, Option.some_bind, isSome_map, format_item_list_isSome]
      simp [h1, h2]
    · rw [checked_sub_eq_none (by omega), Option.none_bind]
      simp [h1, h2]
  · rw [if_neg h1, Option.none_bind]
    simp [h1]

lemma patEnum_isSome_iff (ctx : RewriteContext) (path : String) (e : Pat) (t : List Pat)
    (v : Nat) (off : Indent) :
    (Pat.rewrite ctx (Pat.patEnum path (some (e :: t))) v off).isSome = true ↔
      (path.length ≤ v ∧ path.length + 1 ≤ v ∧
       (Pat.rewriteList ctx (e :: t) (v - (path.length + 1))
          (off + path.length + 1)).all (fun o => o.isSome) = true) := by
  unfold Pat.rewrite rewrite_path
  dsimp only
  simp only [List.isEmpty_cons, Bool.false_eq_true, if_false]
  by_cases h1 : path.length ≤ v
  · rw [if_pos h1, Option.some_bind]
    by_cases h2 : path.length + 1 ≤ v
    · rw [checked_sub_eq_some h2, Option.some_bind, isSome_map, format_item_list_isSome]
      simp [h1, h2]
    · rw [checked_sub_eq_none (by omega), Option.none_bind]
      simp [h1, h2]
  · rw [if_neg h1, Option.none_bind]
    simp [h1]

mutual

theorem rewrite_mono (ctx : RewriteContext) (p : Pat) (hp : p.noSubBinding = true)
    (w w' : Nat) (off : Indent) (hw : w ≤ w')
    (hs : (Pat.rewrite ctx p w off).isSome = true) :
    (Pat.rewrite ctx p w' off).isSome = true := by
  cases p with
  | patBox q =>
    have hq : q.noSubBinding = true := hp
    have hs2 : ((checked_sub w ("box " : String).length).bind
        (fun w2 => (Pat.rewrite ctx q w2 (off + ("box " : String).length)).map
          (fun s => "box " ++ s))).isSome = true := hs
    obtain ⟨hk, hf⟩ := checked_bind_isSome hs2
    rw [isSome_map] at hf
    show ((checked_sub w' ("box " : String).length).bind
        (fun w2 => (Pat.rewrite ctx q w2 (off + ("box " : String).length)).map
          (fun s => "box " ++ s))).isSome = true
    apply checked_bind_isSome_intro (by omega)
    rw [isSome_map]
    exact rewrite_mono ctx q hq (w - ("box " : String).length)
      (w' - ("box " : String).length) (off + ("box " : String).length) (by omega) hf
  | patIdent bm name sub =>
    cases sub with
    | some q => exact Bool.noConfusion (hp : false = true)
    | none =>
      have hs2 : (wrap_str ((binding_parts bm).1 ++ format_mutability (binding_parts bm).2
          ++ name ++ "") ctx.config.max_width w off).isSome = true := hs
      exact wrap_str_isSome_mono hw hs2
  | patWild =>
    unfold Pat.rewrite at hs ⊢
    by_cases h1 : 1 ≤ w
    · rw [if_pos (by omega)]
      rfl
    · rw [if_neg h1] at hs
      exact absurd hs (by simp)
  | patQPath q path =>
    have hs2 : (if ("<" ++ q ++ ">::" ++ path).length ≤ w
        then some ("<" ++ q ++ ">::" ++ path) else none).isSome = true := hs
    show (if ("<" ++ q ++ ">::" ++ path).length ≤ w'
        then some ("<" ++ q ++ ">::" ++ path) else none).isSome = true
    exact fit_if_mono hw hs2
  | patRange lo hi =>
    have hs2 : (if (lo ++ "" ++ "..." ++ "" ++ hi).length ≤ w
        then some (lo ++ "" ++ "..." ++ "" ++ hi) else none).isSome = true := hs
    show (if (lo ++ "" ++ "..." ++ "" ++ hi).length ≤ w'
        then some (lo ++ "" ++ "..." ++ "" ++ hi) else none).isSome = true
    exact fit_if_mono hw hs2
  | patRegion m q =>
    have hq : q.noSubBinding = true := hp
    have hs2 : ((checked_sub w ("&" ++ format_mutability m).length).bind
        (fun w2 => (Pat.rewrite ctx q w2 (off + ("&" ++ format_mutability m).length)).map
          (fun s => ("&" ++ format_mutability m) ++ s))).isSome = true := hs
    obtain ⟨hk, hf⟩ := checked_bind_isSome hs2
    rw [isSome_map] at hf
    show ((checked_sub w' ("&" ++ format_mutability m).length).bind
        (fun w2 => (Pat.rewrite ctx q w2 (off + ("&" ++ format_mutability m).length)).map
          (fun s => ("&" ++ format_mutability m) ++ s))).isSome = true
    apply checked_bind_isSome_intro (by omega)
    rw [isSome_map]
    exact rewrite_mono ctx q hq (w - ("&" ++ format_mutability m).length)
      (w' - ("&" ++ format_mutability m).length) (off + ("&" ++ format_mutability m).length)
      (by omega) hf
  | patTup es =>
    have hes : Pat.noSubBindingList es = true := hp
    have hs2 : ((checked_sub w 1).bind (fun w2 =>
        (format_item_list (Pat.rewriteList ctx es w2 (off + 1)) ")" w2 (off + 1)
          ctx.config).map (fun s => "(" ++ s ++ ")"))).isSome = true := hs
    obtain ⟨hk, hf⟩ := checked_bind_isSome hs2
    rw [isSome_map, format_item_list_isSome] at hf
    show ((checked_sub w' 1).bind (fun w2 =>
        (format_item_list (Pat.rewriteList ctx es w2 (off + 1)) ")" w2 (off + 1)
          ctx.config).map (fun s => "(" ++ s ++ ")"))).isSome = true
    apply checked_bind_isSome_intro (by omega)
    rw [isSome_map, format_item_list_isSome]
    exact rewriteList_mono ctx es hes (w - 1) (w' - 1) (off + 1) (by omega) hf
  | patEnum path elems =>
    cases elems with
    | none =>
      have hs2 : ((if path.length ≤ w then some path else none).bind
          (fun pathStr => some (pathStr ++ "(..)"))).isSome = true := hs
      show ((if path.length ≤ w' then some path else none).bind
          (fun pathStr => some (pathStr ++ "(..)"))).isSome = true
      by_cases h1 : path.length ≤ w
      · rw [if_pos (by omega : path.length ≤ w'), Option.some_bind]
        rfl
      · rw [if_neg h1, Option.none_bind] at hs2
        exact absurd hs2 (by simp)
    | some l =>
      cases l with
      | nil =>
        have hs2 : ((if path.length ≤ w then some path else none).bind
            (fun pathStr => some pathStr)).isSome = true := hs
        show ((if path.length ≤ w' then some path else none).bind
            (fun pathStr => some pathStr)).isSome = true
        by_cases h1 : path.length ≤ w
        · rw [if_pos (by omega : path.length ≤ w'), Option.some_bind]
          rfl
        · rw [if_neg h1, Option.none_bind] at hs2
          exact absurd hs2 (by simp)
      | cons e t =>
        have hp2 : Pat.noSubBindingList (e :: t) = true := hp
        rw [patEnum_isSome_iff] at hs ⊢
        obtain ⟨h1, h2, h3⟩ := hs
        refine ⟨by omega, by omega, ?_⟩
        exact rewriteList_mono ctx (e :: t) hp2 (w - (path.length + 1))
          (w' - (path.length + 1)) (off + path.length + 1) (by omega) h3
  | patLit e =>
    have hs2 : (if e.length ≤ w then some e else none).isSome = true := hs
    show (if e.length ≤ w' then some e else none).isSome = true
    exact fit_if_mono hw hs2
  | patVec pre s suf =>
    cases s with
    | none =>
      have hp3 : ((Pat.noSubBindingList pre && true) && Pat.noSubBindingList suf) = true := hp
      rw [Bool.and_eq_true, Bool.and_eq_true] at hp3
      obtain ⟨⟨hpre, -⟩, hsuf⟩ := hp3
      rw [patVec_rewrite_eq, slice_arm_spec_isSome] at hs ⊢
      rw [List.all_append, List.all_append, Bool.and_eq_true, Bool.and_eq_true] at hs
      obtain ⟨⟨h1, -⟩, h3⟩ := hs
      rw [List.all_append, List.all_append, Bool.and_eq_true, Bool.and_eq_true]
      refine ⟨⟨?_, rfl⟩, ?_⟩
      · rw [← rewriteList_eq_map] at h1 ⊢
        exact rewriteList_mono ctx pre hpre w w' off hw h1
      · rw [← rewriteList_eq_map] at h3 ⊢
        exact rewriteList_mono ctx suf hsuf w w' off hw h3
    | some q =>
      have hp3 : ((Pat.noSubBindingList pre && q.noSubBinding)
          && Pat.noSubBindingList suf) = true := hp
      rw [Bool.and_eq_true, Bool.and_eq_true] at hp3
      obtain ⟨⟨hpre, hq⟩, hsuf⟩ := hp3
      rw [patVec_rewrite_eq, slice_arm_spec_isSome] at hs ⊢
      rw [List.all_append, List.all_append, Bool.and_eq_true, Bool.and_eq_true] at hs
      obtain ⟨⟨h1, h2⟩, h3⟩ := hs
      rw [List.all_append, List.all_append, Bool.and_eq_true, Bool.and_eq_true]
      refine ⟨⟨?_, ?_⟩, ?_⟩
      · rw [← rewriteList_eq_map] at h1 ⊢
        exact rewriteList_mono ctx pre hpre w w' off hw h1
      · have h2b : (Pat.rewrite ctx q w off).isSome = true := by
          simp only [List.all_cons, List.all_nil, Bool.and_true, isSome_map] at h2
          exact h2
        simp only [List.all_cons, List.all_nil, Bool.and_true, isSome_map]
        exact rewrite_mono ctx q hq w w' off hw h2b
      · rw [← rewriteList_eq_map] at h3 ⊢
        exact rewriteList_mono ctx suf hsuf w w' off hw h3
  | patStruct path fs el =>
    have hfs : FieldPat.noSubBindingList fs = true := hp
    rw [patStruct_isSome_iff] at hs ⊢
    obtain ⟨h1, h2, h3⟩ := hs
    refine ⟨by omega, by omega, ?_⟩
    exact fieldRewriteList_mono ctx fs hfs
      (w - (path.length + 5 + (if el then (", .." : String) else "").length))
      (w' - (path.length + 5 + (if el then (", .." : String) else "").length))
      (off + path.length + 3) (by omega) h3
  | patMac s =>
    have hs2 : (wrap_str s ctx.config.max_width w off).isSome = true := hs
    exact wrap_str_isSome_mono hw hs2

theorem fieldRewrite_mono (ctx : RewriteContext) (f : FieldPat)
    (hf : f.noSubBinding = true) (w w' : Nat) (off : Indent) (hw : w ≤ w')
    (hs : (FieldPat.rewrite ctx f w off).isSome = true) :
    (FieldPat.rewrite ctx f w' off).isSome = true := by
  cases f with
  | mk i p sh =>
    have hpb : p.noSubBinding = true := hf
    unfold FieldPat.rewrite at hs ⊢
    dsimp only at hs ⊢
    cases sh with
    | true =>
      rw [if_pos rfl] at hs ⊢
      exact rewrite_mono ctx p hpb w w' off hw hs
    | false =>
      rw [if_neg (by simp)] at hs ⊢
      rw [isSome_map] at hs ⊢
      exact rewrite_mono ctx p hpb w w' off hw hs

theorem rewriteList_mono (ctx : RewriteContext) (ps : List Pat)
    (hp : Pat.noSubBindingList ps = true) (w w' : Nat) (off : Indent) (hw : w ≤ w')
    (hs : (Pat.rewriteList ctx ps w off).all (fun o => o.isSome) = true) :
    (Pat.rewriteList ctx ps w' off).all (fun o => o.isSome) = true := by
  cases ps with
  | nil => rfl
  | cons p t =>
    have hp2 : (p.noSubBinding && Pat.noSubBindingList t) = true := hp
    rw [Bool.and_eq_true] at hp2
    obtain ⟨hph, hpt⟩ := hp2
    unfold Pat.rewriteList at hs ⊢
    rw [List.all_cons, Bool.and_eq_true] at hs ⊢
    obtain ⟨h1, h2⟩ := hs
    exact ⟨rewrite_mono ctx p hph w w' off hw h1,
      rewriteList_mono ctx t hpt w w' off hw h2⟩

theorem fieldRewriteList_mono (ctx : RewriteContext) (fs : List FieldPat)
    (hf : FieldPat.noSubBindingList fs = true) (w w' : Nat) (off : Indent) (hw : w ≤ w')
    (hs : (FieldPat.rewriteList ctx fs w off).all (fun o => o.isSome) = true) :
    (FieldPat.rewriteList ctx fs w' off).all (fun o => o.isSome) = true := by
  cases fs with
  | nil => rfl
  | cons f t =>
    have hf2 : (f.noSubBinding && FieldPat.noSubBindingList t) = true := hf
    rw [Bool.and_eq_true] at hf2
    obtain ⟨hfh, hft⟩ := hf2
    unfold FieldPat.rewriteList at hs ⊢
    rw [List.all_cons, Bool.and_eq_true] at hs ⊢
    obtain ⟨h1, h2⟩ := hs
    exact ⟨fieldRewrite_mono ctx f hfh w w' off hw h1,
      fieldRewriteList_mono ctx t hft w w' off hw h2⟩

end

/-- C5: rendering a Wildcard pattern succeeds and returns exactly `_` iff
the width is at least 1, and yields no-fit iff the width is 0. -/
theorem patWild_succeeds_iff (ctx : RewriteContext) (w : Nat) (off : Indent) :
    (Pat.rewrite ctx Pat.patWild w off = some "_" ↔ 1 ≤ w) ∧
    (Pat.rewrite ctx Pat.patWild w off = none ↔ w = 0) := by
  unfold Pat.rewrite
  rcases Nat.lt_or_ge w 1 with h | h
  · have h0 : w = 0 := by omega
    subst h0
    decide
  · rw [if_pos h]
    refine ⟨⟨fun _ => h, fun _ => rfl⟩, ⟨fun hc => Option.noConfusion hc, fun h0 => by omega⟩⟩

/-- C10: the box-pattern arm delegates to the Prefixed-Unary Renderer with
the fixed prefix `box ` and the inner pattern, under the same budget and
offset. -/
theorem patBox_delegates (ctx : RewriteContext) (p : Pat) (w : Nat) (off : Indent) :
    Pat.rewrite ctx (Pat.patBox p) w off =
      rewrite_unary_prefix (fun w2 o => Pat.rewrite ctx p w2 o) "box " w off ∧
    Pat.rewrite ctx (Pat.patBox p) w off =
      (checked_sub w 4).bind
        (fun w2 => (Pat.rewrite ctx p w2 (off + 4)).map (fun s => "box " ++ s)) :=
  ⟨rfl, rfl⟩

/-- C7: the Field-Pattern Renderer returns the bound pattern's rendering
unchanged for shorthand fields, and `field_name: rendering` otherwise,
propagating no-fit; with the spec's shorthand and non-shorthand examples. -/
theorem fieldPat_rewrite_spec :
    (∀ (ctx : RewriteContext) (f : FieldPat) (w : Nat) (off : Indent),
      FieldPat.rewrite ctx f w off = field_pat_spec ctx f w off) ∧
    FieldPat.rewrite ctx0
      (FieldPat.mk "x" (Pat.patIdent (BindingMode.byValue false) "x" none) true) 10 0
      = some "x" ∧
    FieldPat.rewrite ctx0
      (FieldPat.mk "y" (Pat.patIdent (BindingMode.byValue false) "z" none) false) 10 0
      = some "y: z" := by
  refine ⟨?_, by decide, by decide⟩
  intro ctx f w off
  cases f with
  | mk i p sh =>
    unfold FieldPat.rewrite field_pat_spec
    cases sh with
    | true => simp [FieldPat.is_shorthand, FieldPat.pat]
    | false =>
      simp only [FieldPat.is_shorthand, FieldPat.pat, FieldPat.ident, if_neg]
      cases Pat.rewrite ctx p w off <;> simp

/-- C3: the Slice arm offers every sub-pattern the full remaining budget,
fails as a whole when any single sub-rendering fails, and otherwise joins
the renderings with `, ` inside brackets with no re-check of the combined
length; with the spec's `[a, b.., c]` example and a failure-propagation
instance. -/
theorem patVec_rewrite_spec :
    (∀ (ctx : RewriteContext) (pre : List Pat) (rest : Option Pat) (suf : List Pat)
        (w : Nat) (off : Indent),
      Pat.rewrite ctx (Pat.patVec pre rest suf) w off
        = slice_arm_spec ctx pre rest suf w off) ∧
    Pat.rewrite ctx0 (Pat.patVec [Pat.patLit "a"] (some (Pat.patLit "b")) [Pat.patLit "c"]) 1 0
      = some "[a, b.., c]" ∧
    Pat.rewrite ctx0 (Pat.patVec [Pat.patLit "aa"] none []) 1 0 = none :=
  ⟨patVec_rewrite_eq, by decide, by decide⟩

/-- C4: the Struct arm reserves `len(path) + 5 + len(rest_suffix)` columns,
shifts the offset by `len(path) + 3`, uses terminator `..`/`}` according to
the rest marker, splices the elision marker after the laid-out fields, and
decorates with `path {}` or `path { ... }`; with concrete single-line,
multi-line, empty-field and marker-only instances. -/
theorem patStruct_rewrite_spec :
    (∀ (ctx : RewriteContext) (path : String) (fields : List FieldPat) (el : Bool)
        (w : Nat) (off : Indent),
      Pat.rewrite ctx (Pat.patStruct path fields el) w off
        = struct_arm_spec ctx path fields el w off) ∧
    Pat.rewrite ctx0 (Pat.patStruct "P" [] false) 6 0 = some "P {}" ∧
    Pat.rewrite ctx0 (Pat.patStruct "P" [] true) 10 0 = some "P { .. }" ∧
    Pat.rewrite ctx0 (Pat.patStruct "P"
      [FieldPat.mk "x" (Pat.patLit "1") false, FieldPat.mk "y" (Pat.patLit "2") false] true)
      30 0 = some "P { x: 1, y: 2, .. }" ∧
    Pat.rewrite ctx0 (Pat.patStruct "P"
      [FieldPat.mk "x" (Pat.patLit "1") false, FieldPat.mk "y" (Pat.patLit "2") false] true)
      12 0 = some "P \x7b x: 1,\n    y: 2,\n    .. \x7d" :=
  ⟨fun _ _ _ _ _ _ => rfl, by decide, by decide, by decide, by decide⟩

/-- C2: the PathCall (PatEnum) arm distinguishes elided payloads
(`path(..)`), explicit zero-argument calls (bare `path`), and non-empty
element lists (`path(items)` budgeted at `width - (len(path) + 1)` with
the offset shifted by `len(path) + 1` and terminator `)`), and the three
textual forms are pairwise distinct. -/
theorem patEnum_three_cases (ctx : RewriteContext) (p : String) (w : Nat) (off : Indent)
    (hp : p.length + 2 ≤ w) :
    Pat.rewrite ctx (Pat.patEnum p none) w off = some (p ++ "(..)") ∧
    Pat.rewrite ctx (Pat.patEnum p (some [])) w off = some p ∧
    Pat.rewrite ctx (Pat.patEnum p (some [Pat.patWild])) w off = some (p ++ "(_)") ∧
    (∀ es, es ≠ [] →
      Pat.rewrite ctx (Pat.patEnum p (some es)) w off =
        (checked_sub w (p.length + 1)).bind (fun w2 =>
          (format_item_list (Pat.rewriteList ctx es w2 (off + p.length + 1)) ")" w2
              (off + p.length + 1) ctx.config).map
            (fun ls => p ++ "(" ++ ls ++ ")"))) ∧
    p ++ "(..)" ≠ p ∧ p ≠ p ++ "(_)" ∧ p ++ "(..)" ≠ p ++ "(_)" := by
  have hpath : rewrite_path ctx.config true none p w off = some p := by
    show (if p.length ≤ w then some p else none) = some p
    exact if_pos (by omega)
  refine ⟨?_, ?_, ?_, ?_, ?_, ?_, ?_⟩
  · unfold Pat.rewrite
    rw [hpath]
    rfl
  · unfold Pat.rewrite
    rw [hpath]
    rfl
  · have hwild : Pat.rewrite ctx Pat.patWild (w - (p.length + 1)) (off + p.length + 1)
        = some "_" := by
      unfold Pat.rewrite
      exact if_pos (by omega)
    have hlist : Pat.rewriteList ctx [Pat.patWild] (w - (p.length + 1)) (off + p.length + 1)
        = [some "_"] := by
      unfold Pat.rewriteList
      rw [hwild]
      rfl
    have hfmt : format_item_list [some "_"] ")" (w - (p.length + 1)) (off + p.length + 1)
        ctx.config = some "_" :=
      format_item_list_singleton "_" ")" (w - (p.length + 1)) (off + p.length + 1)
        ctx.config (by have h1 : ("_" : String).length = 1 := rfl; omega)
    unfold Pat.rewrite
    rw [hpath]
    show (checked_sub w (p.length + 1)).bind _ = _
    rw [checked_sub_eq_some (by omega)]
    show (format_item_list (Pat.rewriteList ctx [Pat.patWild] (w - (p.length + 1))
        (off + p.length + 1)) ")" (w - (p.length + 1)) (off + p.length + 1) ctx.config).map
        (fun ls => p ++ "(" ++ ls ++ ")") = some (p ++ "(_)")
    rw [hlist, hfmt]
    show some (p ++ "(" ++ "_" ++ ")") = some (p ++ "(_)")
    rw [String.append_assoc, String.append_assoc]
    rfl
  · intro es hes
    cases es with
    | nil => exact absurd rfl hes
    | cons e l =>
      unfold Pat.rewrite
      rw [hpath]
      rfl
  · intro hc
    have hl := congrArg String.length hc
    rw [String.length_append] at hl
    have h4 : "(..)".length = 4 := rfl
    omega
  · intro hc
    have hl := congrArg String.length hc
    rw [String.length_append] at hl
    have h3 : "(_)".length = 3 := rfl
    omega
  · intro hc
    have hl := congrArg String.length hc
    rw [String.length_append, String.length_append] at hl
    have h4 : "(..)".length = 4 := rfl
    have h3 : "(_)".length = 3 := rfl
    omega

/-- Witness for C2 at the spec's `Foo` instance. -/
theorem patEnum_three_cases_witness :
    Pat.rewrite ctx0 (Pat.patEnum "Foo" none) 6 0 = some "Foo(..)" ∧
    Pat.rewrite ctx0 (Pat.patEnum "Foo" (some [])) 6 0 = some "Foo" ∧
    Pat.rewrite ctx0 (Pat.patEnum "Foo" (some [Pat.patWild])) 6 0 = some "Foo(_)" :=
  ⟨(patEnum_three_cases ctx0 "Foo" 6 0 (by decide)).1,
   (patEnum_three_cases ctx0 "Foo" 6 0 (by decide)).2.1,
   (patEnum_three_cases ctx0 "Foo" 6 0 (by decide)).2.2.1⟩

/-- C6: the Binding arm builds its body from the by-reference marker, the
mutability marker and the name, renders a sub-pattern at
`width - len(body)` appended after ` @ `, and passes the assembled string
through the Width-Fit Normalizer; `ref mut x` renders at any width at
least 9 and is no-fit at width 8. -/
theorem patIdent_rewrite_spec :
    (∀ (ctx : RewriteContext) (bm : BindingMode) (name : String) (sub : Option Pat)
        (w : Nat) (off : Indent),
      Pat.rewrite ctx (Pat.patIdent bm name sub) w off
        = binding_arm_spec ctx bm name sub w off) ∧
    (∀ (w : Nat) (off : Indent), 9 ≤ w →
      Pat.rewrite ctx0 (Pat.patIdent (BindingMode.byRef true) "x" none) w off
        = some "ref mut x") ∧
    (∀ off : Indent,
      Pat.rewrite ctx0 (Pat.patIdent (BindingMode.byRef true) "x" none) 8 off = none) := by
  refine ⟨?_, ?_, ?_⟩
  · intro ctx bm name sub w off
    cases bm <;> cases sub <;>
      simp [Pat.rewrite, binding_arm_spec, binding_parts, BindingMode.is_by_ref,
        BindingMode.mutability, String.length_append]
  · intro w off hw
    have heq : Pat.rewrite ctx0 (Pat.patIdent (BindingMode.byRef true) "x" none) w off
        = wrap_str "ref mut x" 100 w off := rfl
    have h9 : (first_line "ref mut x").length = 9 := rfl
    rw [heq]
    unfold wrap_str
    rw [if_pos (by omega), if_pos (by decide)]
  · intro off
    have heq : Pat.rewrite ctx0 (Pat.patIdent (BindingMode.byRef true) "x" none) 8 off
        = wrap_str "ref mut x" 100 8 off := rfl
    rw [heq]
    unfold wrap_str
    rw [if_neg (by decide)]

/-- Witness for C6 at width 9. -/
theorem patIdent_rewrite_spec_witness :
    Pat.rewrite ctx0 (Pat.patIdent (BindingMode.byRef true) "x" none) 9 0
      = some "ref mut x" :=
  patIdent_rewrite_spec.2.1 9 0 (by omega)

/-- C8: every fixed-length budget subtraction of the dispatcher is
checked: underflow in the Binding, PathCall and Struct arms yields no-fit,
and `checked_sub` itself returns `none` rather than a wrapped value on
underflow. -/
theorem budget_subtraction_checked :
    (∀ n k : Nat, k ≤ n → checked_sub n k = some (n - k)) ∧
    (∀ n k : Nat, n < k → checked_sub n k = none) ∧
    (∀ (ctx : RewriteContext) (bm : BindingMode) (name : String) (sp : Pat)
        (w : Nat) (off : Indent),
      w < (binding_parts bm).1.length + (format_mutability (binding_parts bm).2).length
            + name.length →
      Pat.rewrite ctx (Pat.patIdent bm name (some sp)) w off = none) ∧
    (∀ (ctx : RewriteContext) (p : String) (es : List Pat) (w : Nat) (off : Indent),
      es ≠ [] → w < p.length + 1 →
      Pat.rewrite ctx (Pat.patEnum p (some es)) w off = none) ∧
    (∀ (ctx : RewriteContext) (p : String) (fields : List FieldPat) (el : Bool)
        (w : Nat) (off : Indent),
      w < p.length + 5 + (if el then (", .." : String) else "").length →
      Pat.rewrite ctx (Pat.patStruct p fields el) w off = none) := by
  refine ⟨fun n k h => checked_sub_eq_some h, fun n k h => checked_sub_eq_none h, ?_, ?_, ?_⟩
  · intro ctx bm name sp w off hlt
    unfold Pat.rewrite
    dsimp only
    rw [checked_sub_eq_none hlt]
    rfl
  · intro ctx p es w off hes hlt
    unfold Pat.rewrite rewrite_path
    dsimp only
    by_cases hp : p.length ≤ w
    · rw [if_pos hp]
      cases es with
      | nil => exact absurd rfl hes
      | cons e l =>
        show (checked_sub w (p.length + 1)).bind _ = none
        rw [checked_sub_eq_none (by omega)]
        rfl
    · rw [if_neg hp]
      rfl
  · intro ctx p fields el w off hlt
    unfold Pat.rewrite rewrite_path
    dsimp only
    by_cases hp : p.length ≤ w
    · rw [if_pos hp]
      show (checked_sub w (p.length + 5 + (if el then (", .." : String) else "").length)).bind _
          = none
      rw [checked_sub_eq_none (by omega)]
      rfl
    · rw [if_neg hp]
      rfl

/-- Witness for C8: concrete underflow instances for each checked site. -/
theorem budget_subtraction_checked_witness :
    checked_sub 5 3 = some 2 ∧
    checked_sub 3 5 = none ∧
    Pat.rewrite ctx0 (Pat.patIdent (BindingMode.byRef true) "x" (some Pat.patWild)) 4 0
      = none ∧
    Pat.rewrite ctx0 (Pat.patEnum "Foo" (some [Pat.patWild])) 3 0 = none ∧
    Pat.rewrite ctx0 (Pat.patStruct "P" [] false) 5 0 = none :=
  ⟨budget_subtraction_checked.1 5 3 (by omega),
   budget_subtraction_checked.2.1 3 5 (by omega),
   budget_subtraction_checked.2.2.1 ctx0 (BindingMode.byRef true) "x" Pat.patWild 4 0
     (by decide),
   budget_subtraction_checked.2.2.2.1 ctx0 "Foo" [Pat.patWild] 3 0
     (List.cons_ne_nil _ _) (by decide),
   budget_subtraction_checked.2.2.2.2 ctx0 "P" [] false 5 0 (by decide)⟩

/-- C1 counterexample: a Slice pattern of two wildcards renders
successfully at width 3, yet its (single-line) result `[_, _]` has a first
line of length 6, exceeding the supplied width — the bracketed
comma-joined result is not re-checked. -/
theorem slice_overflows_width :
    Pat.rewrite ctx0 (Pat.patVec [Pat.patWild, Pat.patWild] none []) 3 0 = some "[_, _]" ∧
    3 < (first_line "[_, _]").length :=
  ⟨by decide, by decide⟩

/-- C1 (amended): a successful rendering's first line is at most the
supplied width in the arms that validate their own output — Wildcard
directly, and Binding and Opaque through the Width-Fit Normalizer; the
Slice and Struct arms do not re-check their composed output against the
width and can exceed it. -/
theorem first_line_fits_checked_arms :
    (∀ (ctx : RewriteContext) (w : Nat) (off : Indent) (r : String),
      Pat.rewrite ctx Pat.patWild w off = some r → (first_line r).length ≤ w) ∧
    (∀ (ctx : RewriteContext) (bm : BindingMode) (name : String) (sub : Option Pat)
        (w : Nat) (off : Indent) (r : String),
      Pat.rewrite ctx (Pat.patIdent bm name sub) w off = some r →
        (first_line r).length ≤ w) ∧
    (∀ (ctx : RewriteContext) (s : String) (w : Nat) (off : Indent) (r : String),
      Pat.rewrite ctx (Pat.patMac s) w off = some r → (first_line r).length ≤ w) := by
  refine ⟨?_, ?_, ?_⟩
  · intro ctx w off r h
    unfold Pat.rewrite at h
    by_cases h1 : 1 ≤ w
    · rw [if_pos h1] at h
      injection h with h2
      subst h2
      have : (first_line "_").length = 1 := rfl
      omega
    · rw [if_neg h1] at h
      exact Option.noConfusion h
  · intro ctx bm name sub w off r h
    unfold Pat.rewrite at h
    dsimp only at h
    rw [Option.bind_eq_some] at h
    obtain ⟨a, _, hwr⟩ := h
    obtain ⟨hr, hf⟩ := wrap_str_eq_some hwr
    subst hr
    exact hf
  · intro ctx s w off r h
    have h2 : wrap_str s ctx.config.max_width w off = some r := h
    obtain ⟨hr, hf⟩ := wrap_str_eq_some h2
    subst hr
    exact hf

/-- Witness for the amended C1 at the Binding arm's `ref mut x` instance. -/
theorem first_line_fits_checked_arms_witness :
    (first_line "ref mut x").length ≤ 9 :=
  first_line_fits_checked_arms.2.1 ctx0 (BindingMode.byRef true) "x" none 9 0 "ref mut x"
    (by decide)

/-- C9 counterexample: a Binding with a PathCall sub-pattern renders
successfully at width 8 but yields no-fit at the strictly larger width 9 —
the wider budget switches the nested element list to a longer single-line
layout, which then fails the Binding arm's final width validation. -/
theorem widening_turns_success_into_nofit :
    Pat.rewrite ctx0 (Pat.patIdent (BindingMode.byValue false) "x"
      (some (Pat.patEnum "F" (some [Pat.patLit "a", Pat.patLit "bbb"])))) 8 0
      = some "x @ F(a,\n  bbb)" ∧
    Pat.rewrite ctx0 (Pat.patIdent (BindingMode.byValue false) "x"
      (some (Pat.patEnum "F" (some [Pat.patLit "a", Pat.patLit "bbb"])))) 9 0 = none :=
  ⟨by decide, by decide⟩

/-- C9 (amended): for every pattern that contains no Binding node with a
sub-pattern, success at a width implies success at every larger width; a
Binding with a sub-pattern re-validates its assembled string against the
width, which widening can break. -/
theorem rewrite_success_mono (ctx : RewriteContext) (p : Pat)
    (hp : p.noSubBinding = true) (w w' : Nat) (off : Indent) (hw : w ≤ w')
    (hs : (Pat.rewrite ctx p w off).isSome = true) :
    (Pat.rewrite ctx p w' off).isSome = true :=
  rewrite_mono ctx p hp w w' off hw hs

/-- Witness for the amended C9: widening 6 to 100 preserves success of a
PathCall pattern. -/
theorem rewrite_success_mono_witness :
    (Pat.rewrite ctx0 (Pat.patEnum "Foo" (some [Pat.patWild])) 100 0).isSome = true :=
  rewrite_success_mono ctx0 (Pat.patEnum "Foo" (some [Pat.patWild])) (by decide)
    6 100 0 (by omega) (by decide)

end RustfmtPatterns
